import Mathlib

/-!
Verification of the `Authorizer` component (permission cache + decision API)
of the repository, shallowly embedded in Lean.

The Go source is `modules/authorization` (file with `Authorizer`,
`checkCache`, `loadUserPermissions`, `updateCache`, `invalidateCache`,
`cleanExpiredCache`, `HasPermission`, `HasAnyPermission`,
`HasAllPermissions`, `HasRole`, `GetUserRoles`, `AssignRole`,
`RemoveRole`, `SetCacheTTL`).

Modelling choices:
* Wall-clock time and durations are `Int` (Go `time.Time` / `time.Duration`);
  `time.Since(t)` at clock value `now` is `now - t`, and `time.Now()` is an
  explicit `now : Int` parameter threaded through the stateful operations.
* The Go `map[string]*UserPermissions` cache is an association list
  `List (String × UserPermissions)` with `find?` / `insert` / `erase`.
* The Permission Store (the SQL database behind `TracedDB`) is a `Store`
  record of response functions: each query either succeeds with a value or
  fails with a `StoreErr`.  `StoreErr.noRows` models `sql.ErrNoRows`.
* `uuid.Parse` is modelled by `uuidParse`, accepting the canonical
  36-character `8-4-4-4-12` hexadecimal form and normalising to lower case
  (Go's `uuid.Parse` followed by `uuid.String()` lower-cases).
* Stateful methods take and return the `Authorizer` record explicitly and
  additionally report how many Permission-Store accesses they performed,
  so that "the store is never called" claims are statable.
* The `sync.RWMutex` is irrelevant in this sequential model; goroutine
  scheduling (`StartCacheCleanup`'s ticker loop) is modelled by exposing
  one sweep pass `cleanExpiredCache` as a function of the state and clock.
-/

namespace Authz

/-- Go struct `Permission {Name, Resource, Action string}`. -/
structure Permission where
  name : String
  resource : String
  action : String
deriving DecidableEq, Repr

/-- Go struct `UserPermissions {Permissions []Permission; LoadedAt time.Time}`. -/
structure UserPermissions where
  permissions : List Permission
  loadedAt : Int
deriving DecidableEq, Repr

/-- Errors produced by the Permission Store (the database layer).
`noRows` models `sql.ErrNoRows`; `other` models any other driver or
context error (including cancellation). -/
inductive StoreErr where
  | noRows : StoreErr
  | other : String → StoreErr
deriving DecidableEq, Repr

/-- The Permission Store: the SQL queries issued by the `Authorizer`,
abstracted as response functions keyed by the parsed (canonical) UUID
string.  `userPermissions` answers the `SELECT DISTINCT p.name, ...` join
in `loadUserPermissions`; `roleExists` answers the `SELECT EXISTS(...)` in
`HasRole`; `userRoles` answers the `SELECT r.name ...` in `GetUserRoles`;
`execAssign` / `execRemove` are the `INSERT ... ON CONFLICT DO NOTHING`
and `DELETE` writes of `AssignRole` / `RemoveRole`. -/
structure Store where
  userPermissions : String → Except StoreErr (List Permission)
  roleExists : String → String → Except StoreErr Bool
  userRoles : String → Except StoreErr (List String)
  execAssign : String → String → Except StoreErr Unit
  execRemove : String → String → Except StoreErr Unit

/-- Errors returned by the `Authorizer` API; each wraps the underlying
cause the way the Go code wraps with `fmt.Errorf("...: %w", err)`. -/
inductive AuthErr where
  | invalidUserID : AuthErr
  | permissionLoadFailed : StoreErr → AuthErr
  | roleCheckFailed : StoreErr → AuthErr
  | getUserRolesFailed : StoreErr → AuthErr
  | assignRoleFailed : StoreErr → AuthErr
  | removeRoleFailed : StoreErr → AuthErr
deriving DecidableEq, Repr

/-- The in-memory cache `map[string]*UserPermissions`, as an association
list with at most one binding per key in well-formed states (lookup takes
the first binding, insertion replaces, deletion removes all). -/
abbrev Cache := List (String × UserPermissions)

/-- Map lookup `userPerms, exists := a.cache[userID]`. -/
def Cache.find? (c : Cache) (k : String) : Option UserPermissions :=
  match c with
  | [] => none
  | (k', v) :: rest => if k' = k then some v else Cache.find? rest k

/-- Map store `a.cache[userID] = &UserPermissions{...}` (replace any
previous binding for the key). -/
def Cache.insert (c : Cache) (k : String) (v : UserPermissions) : Cache :=
  match c with
  | [] => [(k, v)]
  | (k', v') :: rest =>
    if k' = k then (k, v) :: rest else (k', v') :: Cache.insert rest k v

/-- Map deletion `delete(a.cache, userID)`. -/
def Cache.erase (c : Cache) (k : String) : Cache :=
  match c with
  | [] => []
  | (k', v') :: rest =>
    if k' = k then Cache.erase rest k else (k', v') :: Cache.erase rest k

/-- Is `c` a hexadecimal digit?  (Character class accepted inside a UUID.) -/
def isHexDigit (c : Char) : Bool :=
  (Char.ofNat 48 ≤ c && c ≤ Char.ofNat 57) ||
  (Char.ofNat 97 ≤ c && c ≤ Char.ofNat 102) ||
  (Char.ofNat 65 ≤ c && c ≤ Char.ofNat 70)

/-- Character-by-character shape check of the canonical UUID form
`xxxxxxxx-xxxx-xxxx-xxxx-xxxxxxxxxxxx`: dashes at offsets 8, 13, 18, 23
and hexadecimal digits everywhere else. -/
def uuidCharsOk : Nat → List Char → Bool
  | _, [] => true
  | i, c :: cs =>
    (if i = 8 ∨ i = 13 ∨ i = 18 ∨ i = 23 then c = Char.ofNat 45
     else isHexDigit c) && uuidCharsOk (i + 1) cs

/-- Model of `uuid.Parse(userID)` restricted to the canonical 36-character
form, returning the canonical (lower-case) string the Go code obtains via
`uuid.String()`; `none` models a parse error. -/
def uuidParse (s : String) : Option String :=
  if s.toList.length = 36 ∧ uuidCharsOk 0 s.toList then
    some (String.mk (s.toList.map Char.toLower))
  else
    none

/-- Go struct `Authorizer`: the mutable state (`db`, `logger` and the
mutex carry no decision-relevant state and are omitted; the store is
passed as an explicit parameter). -/
structure Authorizer where
  cache : Cache
  cacheTTL : Int
  enableCaching : Bool
deriving DecidableEq, Repr

/-- `NewAuthorizer`: empty cache, configured TTL, caching enabled. -/
def NewAuthorizer (ttl : Int) : Authorizer :=
  { cache := [], cacheTTL := ttl, enableCaching := true }

/-- `func (a *Authorizer) SetCacheTTL(ttl time.Duration)`. -/
def SetCacheTTL (a : Authorizer) (ttl : Int) : Authorizer :=
  { a with cacheTTL := ttl }

/-- `func (a *Authorizer) DisableCache()`. -/
def DisableCache (a : Authorizer) : Authorizer :=
  { a with enableCaching := false }

/-- `func (a *Authorizer) EnableCache()`. -/
def EnableCache (a : Authorizer) : Authorizer :=
  { a with enableCaching := true }

/-- `func (a *Authorizer) checkCache(userID, permissionName string) (bool, bool)`:
first component is the cached answer, second is `found`.  Absent entry or
`time.Since(userPerms.LoadedAt) > a.cacheTTL` gives `(false, false)`;
otherwise the entry answers: `(true, true)` iff some cached permission has
the requested name, else `(false, true)`. -/
def checkCache (a : Authorizer) (now : Int) (userID : String)
    (permissionName : String) : Bool × Bool :=
  match Cache.find? a.cache userID with
  | none => (false, false)
  | some userPerms =>
    if now - userPerms.loadedAt > a.cacheTTL then (false, false)
    else (userPerms.permissions.any fun p => p.name = permissionName, true)

/-- `func (a *Authorizer) loadUserPermissions(ctx, userID uuid.UUID)`:
runs the permission join query; a `sql.ErrNoRows` outcome is treated as an
empty permission list, any other error propagates. -/
def loadUserPermissions (store : Store) (uid : String) :
    Except StoreErr (List Permission) :=
  match store.userPermissions uid with
  | Except.ok ps => Except.ok ps
  | Except.error e =>
    if e = StoreErr.noRows then Except.ok [] else Except.error e

/-- `func (a *Authorizer) updateCache(userID string, permissions []Permission)`:
stores a fresh entry stamped `LoadedAt: time.Now()`. -/
def updateCache (a : Authorizer) (now : Int) (userID : String)
    (permissions : List Permission) : Authorizer :=
  let entry : UserPermissions := ⟨permissions, now⟩
  { a with cache := Cache.insert a.cache userID entry }

/-- `func (a *Authorizer) invalidateCache(userID string)`. -/
def invalidateCache (a : Authorizer) (userID : String) : Authorizer :=
  { a with cache := Cache.erase a.cache userID }

/-- `func (a *Authorizer) InvalidateAllCache()`. -/
def InvalidateAllCache (a : Authorizer) : Authorizer :=
  { a with cache := [] }

/-- `func (a *Authorizer) cleanExpiredCache()`: one sweep pass; deletes
every entry with `now.Sub(userPerms.LoadedAt) > a.cacheTTL`, keeps the
rest. -/
def cleanExpiredCache (a : Authorizer) (now : Int) : Authorizer :=
  { a with cache :=
      a.cache.filter fun kv => ! decide (now - kv.2.loadedAt > a.cacheTTL) }

/-- `func (a *Authorizer) HasPermission(ctx, userID, permissionName string) (bool, error)`.
Returns the `(bool, error)` result (as `Except AuthErr Bool`), the updated
state, and the number of Permission-Store accesses performed. -/
def HasPermission (store : Store) (a : Authorizer) (now : Int)
    (userID : String) (permissionName : String) :
    Except AuthErr Bool × Authorizer × Nat :=
  match uuidParse userID with
  | none => (Except.error AuthErr.invalidUserID, a, 0)
  | some uid =>
    let cached : Option Bool :=
      if a.enableCaching then
        let hit := checkCache a now userID permissionName
        if hit.2 then some hit.1 else none
      else none
    match cached with
    | some hasPermission => (Except.ok hasPermission, a, 0)
    | none =>
      match loadUserPermissions store uid with
      | Except.error e =>
        (Except.error (AuthErr.permissionLoadFailed e), a, 1)
      | Except.ok permissions =>
        let a' := if a.enableCaching then updateCache a now userID permissions
                  else a
        (Except.ok (permissions.any fun p => p.name = permissionName), a', 1)

/-- `func (a *Authorizer) HasAnyPermission(ctx, userID string, permissionNames []string)`:
the loop calls `HasPermission` per name, threading the (mutated) state;
store-access counts add up. -/
def HasAnyPermission (store : Store) (a : Authorizer) (now : Int)
    (userID : String) : List String → Except AuthErr Bool × Authorizer × Nat
  | [] => (Except.ok false, a, 0)
  | permissionName :: rest =>
    match HasPermission store a now userID permissionName with
    | (Except.error e, a', n) => (Except.error e, a', n)
    | (Except.ok true, a', n) => (Except.ok true, a', n)
    | (Except.ok false, a', n) =>
      let r := HasAnyPermission store a' now userID rest
      (r.1, r.2.1, n + r.2.2)

/-- `func (a *Authorizer) HasAllPermissions(ctx, userID string, permissionNames []string)`. -/
def HasAllPermissions (store : Store) (a : Authorizer) (now : Int)
    (userID : String) : List String → Except AuthErr Bool × Authorizer × Nat
  | [] => (Except.ok true, a, 0)
  | permissionName :: rest =>
    match HasPermission store a now userID permissionName with
    | (Except.error e, a', n) => (Except.error e, a', n)
    | (Except.ok false, a', n) => (Except.ok false, a', n)
    | (Except.ok true, a', n) =>
      let r := HasAllPermissions store a' now userID rest
      (r.1, r.2.1, n + r.2.2)

/-- `func (a *Authorizer) HasRole(ctx, userID, roleName string) (bool, error)`:
parse the UUID, then one direct `SELECT EXISTS` query against the store;
no cache access.  The `Nat` is the number of store accesses. -/
def HasRole (store : Store) (a : Authorizer) (userID : String)
    (roleName : String) : Except AuthErr Bool × Authorizer × Nat :=
  match uuidParse userID with
  | none => (Except.error AuthErr.invalidUserID, a, 0)
  | some uid =>
    match store.roleExists uid roleName with
    | Except.error e => (Except.error (AuthErr.roleCheckFailed e), a, 1)
    | Except.ok exists_ => (Except.ok exists_, a, 1)

/-- `func (a *Authorizer) GetUserRoles(ctx, userID string) ([]string, error)`:
parse the UUID, then one direct `SELECT r.name` query; no cache access. -/
def GetUserRoles (store : Store) (a : Authorizer) (userID : String) :
    Except AuthErr (List String) × Authorizer × Nat :=
  match uuidParse userID with
  | none => (Except.error AuthErr.invalidUserID, a, 0)
  | some uid =>
    match store.userRoles uid with
    | Except.error e => (Except.error (AuthErr.getUserRolesFailed e), a, 1)
    | Except.ok roles => (Except.ok roles, a, 1)

/-- `func (a *Authorizer) AssignRole(ctx, userID, roleName string) error`:
parse, idempotent upsert against the store, then `invalidateCache` on
success only. -/
def AssignRole (store : Store) (a : Authorizer) (userID : String)
    (roleName : String) : Except AuthErr Unit × Authorizer :=
  match uuidParse userID with
  | none => (Except.error AuthErr.invalidUserID, a)
  | some uid =>
    match store.execAssign uid roleName with
    | Except.error e => (Except.error (AuthErr.assignRoleFailed e), a)
    | Except.ok _ => (Except.ok (), invalidateCache a userID)

/-- `func (a *Authorizer) RemoveRole(ctx, userID, roleName string) error`:
parse, delete against the store, then `invalidateCache` on success only. -/
def RemoveRole (store : Store) (a : Authorizer) (userID : String)
    (roleName : String) : Except AuthErr Unit × Authorizer :=
  match uuidParse userID with
  | none => (Except.error AuthErr.invalidUserID, a)
  | some uid =>
    match store.execRemove uid roleName with
    | Except.error e => (Except.error (AuthErr.removeRoleFailed e), a)
    | Except.ok _ => (Except.ok (), invalidateCache a userID)

/-! ### Store-only answer and cache coherence -/

/-- The cache-free answer of a permission check: what the Permission Store
alone says about `uid` having a permission called `name` (the `for _, p :=
range permissions` scan of `HasPermission` applied directly to the loaded
set). -/
def pureHas (store : Store) (uid : String) (name : String) :
    Except StoreErr Bool :=
  match loadUserPermissions store uid with
  | Except.ok ps => Except.ok (ps.any fun p => p.name = name)
  | Except.error e => Except.error e

/-- The cache is coherent with a (fixed) store state: every cached entry
holds exactly the permission set the store would deliver for that user
right now.  This is the invariant "same store state" of the spec: as long
as the store does not change, every fill produces a coherent entry, so
every reachable cache state is coherent. -/
def cacheCoherent (store : Store) (a : Authorizer) : Prop :=
  ∀ k e uid, Cache.find? a.cache k = some e → uuidParse k = some uid →
    loadUserPermissions store uid = Except.ok e.permissions

/-- Boolean form of "the store-only answer for `uid` and `name` is a
successful `true`". -/
def pureHolds (store : Store) (uid : String) (name : String) : Bool :=
  match pureHas store uid name with
  | Except.ok true => true
  | _ => false

/-! ### Concrete fixtures for witnesses and counterexamples -/

/-- A canonical-form UUID string (parses, and is its own canonical form). -/
def uuidA : String := "00000000-0000-0000-0000-000000000000"

/-- A sample permission row. -/
def permRead : Permission := ⟨"read:users", "users", "read"⟩

/-- Store fixture: every user resolves to exactly `[permRead]`; role
queries succeed; writes succeed. -/
def storeRead : Store :=
  ⟨fun _ => Except.ok [permRead], fun _ _ => Except.ok true,
   fun _ => Except.ok ["admin"], fun _ _ => Except.ok (),
   fun _ _ => Except.ok ()⟩

/-- Store fixture: every user resolves to no permissions. -/
def storeEmpty : Store :=
  ⟨fun _ => Except.ok [], fun _ _ => Except.ok false,
   fun _ => Except.ok [], fun _ _ => Except.ok (), fun _ _ => Except.ok ()⟩

/-- Store fixture: the database is unreachable; every query and write
fails with a non-`noRows` error. -/
def storeDown : Store :=
  ⟨fun _ => Except.error (StoreErr.other "connection refused"),
   fun _ _ => Except.error (StoreErr.other "connection refused"),
   fun _ => Except.error (StoreErr.other "connection refused"),
   fun _ _ => Except.error (StoreErr.other "connection refused"),
   fun _ _ => Except.error (StoreErr.other "connection refused")⟩

/-- Authorizer with TTL 10, caching enabled, one entry for `uuidA`
(permissions `[permRead]`) stamped at time 0. -/
def aBoundary : Authorizer := ⟨[(uuidA, ⟨[permRead], 0⟩)], 10, true⟩

/-- A second canonical-form UUID string, distinct from `uuidA`. -/
def uuidB : String := "ffffffff-ffff-ffff-ffff-ffffffffffff"

/-- Authorizer with TTL 10 holding two entries: one for `uuidA` stamped at
time 0 and one for `uuidB` stamped at time 8 (at clock 11 the first is
expired, the second is not). -/
def aSweep : Authorizer :=
  ⟨[(uuidA, ⟨[permRead], 0⟩), (uuidB, ⟨[], 8⟩)], 10, true⟩

end Authz

namespace Authz

/-! ### Basic cache lemmas -/

theorem Cache.find?_insert (c : Cache) (k k' : String) (v : UserPermissions) :
    Cache.find? (Cache.insert c k v) k' =
      if k = k' then some v else Cache.find? c k' := by
  induction c with
  | nil => simp [Cache.insert, Cache.find?]
  | cons hd tl ih =>
    obtain ⟨k1, v1⟩ := hd
    by_cases h1 : k1 = k
    · simp only [Cache.insert, if_pos h1, Cache.find?]
      by_cases h2 : k1 = k'
      · have h3 : k = k' := h1.symm.trans h2
        rw [if_pos h3, if_pos h3]
      · have h3 : ¬ k = k' := fun h => h2 (h1.trans h)
        rw [if_neg h3, if_neg h3, if_neg h2]
    · simp only [Cache.insert, if_neg h1, Cache.find?]
      by_cases h2 : k1 = k'
      · have h3 : ¬ k = k' := fun h => h1 (h2.trans h.symm)
        rw [if_pos h2, if_neg h3, if_pos h2]
      · rw [if_neg h2, if_neg h2, ih]

theorem Cache.find?_erase (c : Cache) (k k' : String) :
    Cache.find? (Cache.erase c k) k' =
      if k = k' then none else Cache.find? c k' := by
  induction c with
  | nil => simp [Cache.erase, Cache.find?]
  | cons hd tl ih =>
    obtain ⟨k1, v1⟩ := hd
    by_cases h1 : k1 = k
    · simp only [Cache.erase, if_pos h1, Cache.find?, ih]
      by_cases h2 : k1 = k'
      · have h3 : k = k' := h1.symm.trans h2
        rw [if_pos h3, if_pos h3]
      · have h3 : ¬ k = k' := fun h => h2 (h1.trans h)
        rw [if_neg h3, if_neg h3, if_neg h2]
    · simp only [Cache.erase, if_neg h1, Cache.find?, ih]
      by_cases h2 : k1 = k'
      · have h3 : ¬ k = k' := fun h => h1 (h2.trans h.symm)
        rw [if_pos h2, if_neg h3, if_pos h2]
      · rw [if_neg h2, if_neg h2]

theorem Cache.find?_eq_none_of_not_mem (c : Cache) (k : String)
    (h : k ∉ c.map Prod.fst) : Cache.find? c k = none := by
  induction c with
  | nil => rfl
  | cons hd tl ih =>
    obtain ⟨k1, v1⟩ := hd
    simp only [List.map_cons, List.mem_cons] at h
    push_neg at h
    have h1 : ¬ k1 = k := fun hh => h.1 hh.symm
    simp [Cache.find?, h1, ih h.2]

theorem Cache.find?_filter_eq_none (c : Cache) (k : String)
    (p : String × UserPermissions → Bool) (h : Cache.find? c k = none) :
    Cache.find? (c.filter p) k = none := by
  induction c with
  | nil => rfl
  | cons hd tl ih =>
    obtain ⟨k1, v1⟩ := hd
    simp only [Cache.find?] at h
    by_cases h1 : k1 = k
    · simp [h1] at h
    · simp only [if_neg h1] at h
      by_cases hp : p (k1, v1)
      · simp only [List.filter_cons, hp, if_pos, Cache.find?, if_neg h1]
        exact ih h
      · simp only [List.filter_cons]
        rw [if_neg (by simp [hp])]
        exact ih h

end Authz

namespace Authz

/-- `checkCache` on an absent key misses. -/
theorem checkCache_none (a : Authorizer) (now : Int) (u p : String)
    (hf : Cache.find? a.cache u = none) :
    checkCache a now u p = (false, false) := by
  simp [checkCache, hf]

/-- `checkCache` on an expired entry misses. -/
theorem checkCache_expired (a : Authorizer) (now : Int) (u p : String)
    (e : UserPermissions) (hf : Cache.find? a.cache u = some e)
    (hexp : now - e.loadedAt > a.cacheTTL) :
    checkCache a now u p = (false, false) := by
  simp [checkCache, hf, hexp]

/-- `checkCache` on a fresh entry answers from the entry. -/
theorem checkCache_fresh (a : Authorizer) (now : Int) (u p : String)
    (e : UserPermissions) (hf : Cache.find? a.cache u = some e)
    (hexp : ¬ now - e.loadedAt > a.cacheTTL) :
    checkCache a now u p = (e.permissions.any fun q => q.name = p, true) := by
  simp [checkCache, hf, hexp]

/-- Under a coherent cache, the `HasPermission` answer equals the
store-only answer (wrapped as the code wraps it). -/
theorem hasPermission_answer_coherent (store : Store) (a : Authorizer)
    (now : Int) (u p uid : String) (hco : cacheCoherent store a)
    (hu : uuidParse u = some uid) :
    (HasPermission store a now u p).1 =
      match pureHas store uid p with
      | Except.ok b => Except.ok b
      | Except.error e => Except.error (AuthErr.permissionLoadFailed e) := by
  simp only [HasPermission, hu]
  cases henb : a.enableCaching with
  | false =>
    simp only [henb, Bool.false_eq_true, if_false]
    cases hl : loadUserPermissions store uid <;> simp [pureHas, hl]
  | true =>
    cases hf : Cache.find? a.cache u with
    | none =>
      simp only [henb, if_true, checkCache_none a now u p hf]
      cases hl : loadUserPermissions store uid <;> simp [pureHas, hl]
    | some e =>
      by_cases hexp : now - e.loadedAt > a.cacheTTL
      · simp only [henb, if_true, checkCache_expired a now u p e hf hexp]
        cases hl : loadUserPermissions store uid <;> simp [pureHas, hl]
      · have hl := hco u e uid hf hu
        simp only [henb, if_true, checkCache_fresh a now u p e hf hexp]
        simp [pureHas, hl]

/-- The state after `HasPermission`: unchanged, unless a successful load
with caching enabled replaced that user's entry. -/
theorem hasPermission_state (store : Store) (a : Authorizer) (now : Int)
    (u p : String) :
    (HasPermission store a now u p).2.1 = a ∨
    ∃ uid ps, uuidParse u = some uid ∧
      loadUserPermissions store uid = Except.ok ps ∧
      a.enableCaching = true ∧
      (HasPermission store a now u p).2.1 = updateCache a now u ps := by
  cases hu : uuidParse u with
  | none => left; simp [HasPermission, hu]
  | some uid =>
    cases henb : a.enableCaching with
    | false =>
      left
      simp only [HasPermission, hu, henb, Bool.false_eq_true, if_false]
      cases hl : loadUserPermissions store uid <;> simp
    | true =>
      cases hchk : (checkCache a now u p).2 with
      | true =>
        left
        simp [HasPermission, hu, henb, hchk]
      | false =>
        cases hl : loadUserPermissions store uid with
        | error e => left; simp [HasPermission, hu, henb, hchk, hl]
        | ok ps =>
          right
          exact ⟨uid, ps, rfl, hl, rfl, by simp [HasPermission, hu, henb, hchk, hl]⟩

/-- `HasPermission` preserves cache coherence (a fill stores exactly what
the store returned). -/
theorem hasPermission_preserves_coherent (store : Store) (a : Authorizer)
    (now : Int) (u p : String) (hco : cacheCoherent store a) :
    cacheCoherent store (HasPermission store a now u p).2.1 := by
  rcases hasPermission_state store a now u p with h | ⟨uid, ps, hu, hl, _, h⟩
  · rw [h]; exact hco
  · rw [h]
    intro k e uid' hfind hk
    rw [updateCache] at hfind
    simp only at hfind
    rw [Cache.find?_insert] at hfind
    by_cases hk' : u = k
    · rw [if_pos hk'] at hfind
      cases hfind
      rw [← hk', hu] at hk
      cases hk
      exact hl
    · rw [if_neg hk'] at hfind
      exact hco k e uid' hfind hk

end Authz

namespace Authz

/-! ### Helper: a cache miss forces exactly one store load -/

theorem hasPermission_loads_one (store : Store) (a : Authorizer) (now : Int)
    (u p uid : String) (hu : uuidParse u = some uid)
    (hc : (checkCache a now u p).2 = false) :
    (HasPermission store a now u p).2.2 = 1 := by
  simp only [HasPermission, hu]
  cases henb : a.enableCaching <;>
    cases hl : loadUserPermissions store uid <;> simp [hc, hl]

/-! ### C1: cache-entry validity window -/

/-- C1, counterexample: the claim "an entry answers a lookup only while
`now - loadedAt < TTL`" (strict) is false on the code.  With TTL 10 and
`loadedAt = 0`, a lookup at `now = 10` (age exactly TTL, not `< TTL`) is
still answered from the cached entry: `checkCache` reports a hit, and
`HasPermission` returns the cached answer `true` with zero store loads
even though the store would answer `false`. -/
theorem checkCache_boundary_counterexample :
    (checkCache aBoundary 10 uuidA "read:users").2 = true ∧
    ¬ (10 - (0 : Int) < aBoundary.cacheTTL) ∧
    HasPermission storeEmpty aBoundary 10 uuidA "read:users"
      = (Except.ok true, aBoundary, 0) :=
  ⟨rfl, by decide, rfl⟩

/-- C1 (amended): a cached entry is valid for a lookup exactly while
`now - loadedAt ≤ TTL` (boundary inclusive): the cache-hit path answers
from an entry iff the entry exists and its age is at most the current
TTL; and any lookup performed at `t > loadedAt + TTL` never answers from
the entry — `checkCache` misses and `HasPermission` performs a fresh
store load. -/
theorem checkCache_validity_boundary (store : Store) (a : Authorizer)
    (now : Int) (u p uid : String) (e : UserPermissions) :
    ((checkCache a now u p).2 = true ↔
      ∃ e', Cache.find? a.cache u = some e' ∧
        now - e'.loadedAt ≤ a.cacheTTL) ∧
    (Cache.find? a.cache u = some e → now - e.loadedAt > a.cacheTTL →
      uuidParse u = some uid →
      checkCache a now u p = (false, false) ∧
      (HasPermission store a now u p).2.2 = 1) := by
  constructor
  · cases hf : Cache.find? a.cache u with
    | none => simp [checkCache, hf]
    | some e' =>
      by_cases hexp : now - e'.loadedAt > a.cacheTTL
      · simp only [checkCache, hf, if_pos hexp]
        simp
        omega
      · simp only [checkCache, hf, if_neg hexp]
        simp
        omega
  · intro hf hexp hu
    have hc := checkCache_expired a now u p e hf hexp
    exact ⟨hc, hasPermission_loads_one store a now u p uid hu (by rw [hc])⟩

/-- C1 witness: concrete expired lookup (TTL 10, age 11) misses the cache
and performs one store load. -/
theorem checkCache_validity_boundary_witness :
    checkCache aBoundary 11 uuidA "read:users" = (false, false) ∧
    (HasPermission storeRead aBoundary 11 uuidA "read:users").2.2 = 1 :=
  (checkCache_validity_boundary storeRead aBoundary 11 uuidA "read:users"
    uuidA ⟨[permRead], 0⟩).2 rfl (by decide) (by decide)

/-! ### C3: no negative caching -/

/-- C3: if the store load inside `HasPermission` fails (any error other
than the no-rows case the code converts to an empty set, including
cancellation), the call returns the wrapped `PermissionLoadFailed` error
and the entire authorizer state — in particular the cache — is exactly
what it was before: an absent entry stays absent, a prior entry for the
user is unchanged. -/
theorem load_failure_preserves_cache (store : Store) (a : Authorizer)
    (now : Int) (u p uid : String) (e : StoreErr)
    (hu : uuidParse u = some uid)
    (hmiss : a.enableCaching = true → (checkCache a now u p).2 = false)
    (hl : loadUserPermissions store uid = Except.error e) :
    HasPermission store a now u p
      = (Except.error (AuthErr.permissionLoadFailed e), a, 1) := by
  simp only [HasPermission, hu]
  cases henb : a.enableCaching with
  | false => simp [hl]
  | true => simp [hmiss henb, hl]

/-- C3 witness: expired prior entry, store down — wrapped error, state
(including the prior entry) untouched. -/
theorem load_failure_preserves_cache_witness :
    HasPermission storeDown aBoundary 11 uuidA "read:users"
      = (Except.error
          (AuthErr.permissionLoadFailed (StoreErr.other "connection refused")),
         aBoundary, 1) :=
  load_failure_preserves_cache storeDown aBoundary 11 uuidA "read:users"
    uuidA (StoreErr.other "connection refused") (by decide)
    (fun _ => by decide) rfl

/-! ### C6: invalid user ID rejected without side effects -/

/-- C6: a `userID` that does not parse as a UUID makes `HasPermission`
return the `InvalidUserID` error immediately: the state (hence the cache)
is unchanged and zero store accesses happen. -/
theorem invalid_userID_no_side_effects (store : Store) (a : Authorizer)
    (now : Int) (u p : String) (h : uuidParse u = none) :
    HasPermission store a now u p
      = (Except.error AuthErr.invalidUserID, a, 0) := by
  simp [HasPermission, h]

/-- C6 witness: the spec's own example `HasPermission("not-a-uuid", "x")`. -/
theorem invalid_userID_no_side_effects_witness :
    HasPermission storeRead aBoundary 0 "not-a-uuid" "x"
      = (Except.error AuthErr.invalidUserID, aBoundary, 0) :=
  invalid_userID_no_side_effects storeRead aBoundary 0 "not-a-uuid" "x"
    (by decide)

/-! ### C7: role paths bypass the cache -/

/-- C7: for a valid user ID, `HasRole` and `GetUserRoles` leave the
authorizer state (cache, TTL, flag) unchanged, perform exactly one direct
store query, and their answers do not depend on the cache: any two
authorizer states give the same answer against the same store. -/
theorem hasRole_getUserRoles_bypass_cache (store : Store)
    (a a' : Authorizer) (u r uid : String) (hu : uuidParse u = some uid) :
    (HasRole store a u r).2.1 = a ∧ (HasRole store a u r).2.2 = 1 ∧
    (GetUserRoles store a u).2.1 = a ∧ (GetUserRoles store a u).2.2 = 1 ∧
    (HasRole store a u r).1 = (HasRole store a' u r).1 ∧
    (GetUserRoles store a u).1 = (GetUserRoles store a' u).1 := by
  cases hr : store.roleExists uid r <;> cases hg : store.userRoles uid <;>
    simp [HasRole, GetUserRoles, hu, hr, hg]

/-- C7 witness: concrete role queries against a populated cache leave it
unchanged and agree with a fresh-state run. -/
theorem hasRole_getUserRoles_bypass_cache_witness :
    (HasRole storeRead aBoundary uuidA "admin").2.1 = aBoundary ∧
    (HasRole storeRead aBoundary uuidA "admin").2.2 = 1 ∧
    (GetUserRoles storeRead aBoundary uuidA).2.1 = aBoundary ∧
    (GetUserRoles storeRead aBoundary uuidA).2.2 = 1 ∧
    (HasRole storeRead aBoundary uuidA "admin").1
      = (HasRole storeRead (NewAuthorizer 5) uuidA "admin").1 ∧
    (GetUserRoles storeRead aBoundary uuidA).1
      = (GetUserRoles storeRead (NewAuthorizer 5) uuidA).1 :=
  hasRole_getUserRoles_bypass_cache storeRead aBoundary (NewAuthorizer 5)
    uuidA "admin" uuidA (by decide)

/-! ### C10: empty permission-name list -/

/-- C10: with an empty name list both composition loops return without
calling `HasPermission` at all: `HasAnyPermission` gives `(false, nil)`,
`HasAllPermissions` gives `(true, nil)`, for any user-ID string (valid
UUID or not), with the state unchanged and zero store accesses. -/
theorem empty_names_composition (store : Store) (a : Authorizer)
    (now : Int) (u : String) :
    HasAnyPermission store a now u [] = (Except.ok false, a, 0) ∧
    HasAllPermissions store a now u [] = (Except.ok true, a, 0) :=
  ⟨rfl, rfl⟩

end Authz

namespace Authz

/-! ### C2: cache transparency -/

/-- C2: against a fixed store state (formally: every cached entry holds
exactly what the store would deliver for that user — which is precisely
the invariant every cache fill establishes while the store does not
change), `HasPermission` returns the same answer with caching enabled as
with caching disabled, for every user ID, permission name and clock
value. -/
theorem hasPermission_cache_transparency (store : Store) (a : Authorizer)
    (now : Int) (u p : String) (hco : cacheCoherent store a) :
    (HasPermission store (EnableCache a) now u p).1 =
    (HasPermission store (DisableCache a) now u p).1 := by
  cases hu : uuidParse u with
  | none => simp [HasPermission, hu]
  | some uid =>
    have hcoE : cacheCoherent store (EnableCache a) := hco
    have hcoD : cacheCoherent store (DisableCache a) := hco
    rw [hasPermission_answer_coherent store (EnableCache a) now u p uid hcoE hu,
      hasPermission_answer_coherent store (DisableCache a) now u p uid hcoD hu]

/-- C2 witness: populated coherent cache, same boolean answer in both
modes. -/
theorem hasPermission_cache_transparency_witness :
    (HasPermission storeRead (EnableCache aBoundary) 5 uuidA "user.delete").1 =
    (HasPermission storeRead (DisableCache aBoundary) 5 uuidA "user.delete").1 :=
  hasPermission_cache_transparency storeRead aBoundary 5 uuidA "user.delete"
    (by
      intro k e uid hf _
      revert hf
      show Cache.find? aBoundary.cache k = some e → _
      simp only [aBoundary, Cache.find?]
      by_cases h : uuidA = k
      · rw [if_pos h]
        intro he
        injection he with he
        rw [← he]
        rfl
      · rw [if_neg h]
        intro he
        exact Option.noConfusion he)

/-! ### C4: invalidation on mutation -/

/-- C4: for every prior state, a successfully committed `AssignRole` or
`RemoveRole` deletes the user's cache entry in the same operation — so the
next `HasPermission` for that user misses the cache and performs a store
load regardless of the prior entry's age — while a failed store write
returns the wrapped error and leaves the state (hence the cache entry)
untouched. -/
theorem role_mutation_invalidation (store : Store) (a : Authorizer)
    (now : Int) (u r p uid : String) (hu : uuidParse u = some uid) :
    (store.execAssign uid r = Except.ok () →
      AssignRole store a u r = (Except.ok (), invalidateCache a u) ∧
      Cache.find? (AssignRole store a u r).2.cache u = none ∧
      (HasPermission store (AssignRole store a u r).2 now u p).2.2 = 1) ∧
    (∀ e, store.execAssign uid r = Except.error e →
      AssignRole store a u r = (Except.error (AuthErr.assignRoleFailed e), a)) ∧
    (store.execRemove uid r = Except.ok () →
      RemoveRole store a u r = (Except.ok (), invalidateCache a u) ∧
      Cache.find? (RemoveRole store a u r).2.cache u = none ∧
      (HasPermission store (RemoveRole store a u r).2 now u p).2.2 = 1) ∧
    (∀ e, store.execRemove uid r = Except.error e →
      RemoveRole store a u r = (Except.error (AuthErr.removeRoleFailed e), a)) := by
  refine ⟨?_, ?_, ?_, ?_⟩
  · intro hw
    have hA : AssignRole store a u r = (Except.ok (), invalidateCache a u) := by
      simp [AssignRole, hu, hw]
    have hFind : Cache.find? (AssignRole store a u r).2.cache u = none := by
      rw [hA]
      simp [invalidateCache, Cache.find?_erase]
    refine ⟨hA, hFind, hasPermission_loads_one store _ now u p uid hu ?_⟩
    rw [checkCache_none _ now u p hFind]
  · intro e hw
    simp [AssignRole, hu, hw]
  · intro hw
    have hR : RemoveRole store a u r = (Except.ok (), invalidateCache a u) := by
      simp [RemoveRole, hu, hw]
    have hFind : Cache.find? (RemoveRole store a u r).2.cache u = none := by
      rw [hR]
      simp [invalidateCache, Cache.find?_erase]
    refine ⟨hR, hFind, hasPermission_loads_one store _ now u p uid hu ?_⟩
    rw [checkCache_none _ now u p hFind]
  · intro e hw
    simp [RemoveRole, hu, hw]

/-- C4 witness: a committed `AssignRole` deletes the (still fresh) entry
and the next check loads from the store; a failed `RemoveRole` against an
unreachable store leaves the state untouched. -/
theorem role_mutation_invalidation_witness :
    (AssignRole storeRead aBoundary uuidA "admin"
        = (Except.ok (), invalidateCache aBoundary uuidA) ∧
      Cache.find? (AssignRole storeRead aBoundary uuidA "admin").2.cache uuidA
        = none ∧
      (HasPermission storeRead (AssignRole storeRead aBoundary uuidA "admin").2
          0 uuidA "read:users").2.2 = 1) ∧
    RemoveRole storeDown aBoundary uuidA "admin"
      = (Except.error
          (AuthErr.removeRoleFailed (StoreErr.other "connection refused")),
         aBoundary) :=
  ⟨(role_mutation_invalidation storeRead aBoundary 0 uuidA "admin"
      "read:users" uuidA (by decide)).1 rfl,
   (role_mutation_invalidation storeDown aBoundary 0 uuidA "admin"
      "read:users" uuidA (by decide)).2.2.2 _ rfl⟩

end Authz

namespace Authz

/-! ### C5: composition semantics of HasAnyPermission / HasAllPermissions -/

/-- Under a coherent cache and per-name successful store answers, the
`HasAnyPermission` answer is the boolean "some name is held" over the
store-only answers. -/
theorem hasAny_answer_coherent (store : Store) (now : Int) (u uid : String)
    (hu : uuidParse u = some uid) :
    ∀ (ms : List String) (a : Authorizer), cacheCoherent store a →
      (∀ m ∈ ms, ∃ b, pureHas store uid m = Except.ok b) →
      (HasAnyPermission store a now u ms).1 =
        Except.ok (ms.any fun m =>
          pureHolds store uid m) := by
  intro ms
  induction ms with
  | nil => intro a _ _; rfl
  | cons m ms ih =>
    intro a hco hall
    obtain ⟨b, hb⟩ := hall m (List.mem_cons_self m ms)
    have hans := hasPermission_answer_coherent store a now u m uid hco hu
    rw [hb] at hans
    rcases hres : HasPermission store a now u m with ⟨r1, a', nl⟩
    rw [hres] at hans
    have hr1 : r1 = Except.ok b := hans
    subst hr1
    cases b with
    | true =>
      have hone : ((m :: ms).any fun m' =>
          pureHolds store uid m') = true := by
        simp [List.any_cons, pureHolds, hb]
      rw [hone]
      simp [HasAnyPermission, hres]
    | false =>
      have hco' : cacheCoherent store a' := by
        have hp := hasPermission_preserves_coherent store a now u m hco
        rw [hres] at hp
        exact hp
      have hrest := ih a' hco' fun m' hm' => hall m' (List.mem_cons_of_mem m hm')
      have hskip : ((m :: ms).any fun m' =>
            pureHolds store uid m')
          = ms.any fun m' => pureHolds store uid m' := by
        simp [List.any_cons, pureHolds, hb]
      rw [hskip]
      simp only [HasAnyPermission, hres]
      exact hrest

/-- Under a coherent cache and per-name successful store answers, the
`HasAllPermissions` answer is the boolean "every name is held" over the
store-only answers. -/
theorem hasAll_answer_coherent (store : Store) (now : Int) (u uid : String)
    (hu : uuidParse u = some uid) :
    ∀ (ms : List String) (a : Authorizer), cacheCoherent store a →
      (∀ m ∈ ms, ∃ b, pureHas store uid m = Except.ok b) →
      (HasAllPermissions store a now u ms).1 =
        Except.ok (ms.all fun m =>
          pureHolds store uid m) := by
  intro ms
  induction ms with
  | nil => intro a _ _; rfl
  | cons m ms ih =>
    intro a hco hall
    obtain ⟨b, hb⟩ := hall m (List.mem_cons_self m ms)
    have hans := hasPermission_answer_coherent store a now u m uid hco hu
    rw [hb] at hans
    rcases hres : HasPermission store a now u m with ⟨r1, a', nl⟩
    rw [hres] at hans
    have hr1 : r1 = Except.ok b := hans
    subst hr1
    cases b with
    | false =>
      have hzero : ((m :: ms).all fun m' =>
          pureHolds store uid m') = false := by
        simp [List.all_cons, pureHolds, hb]
      rw [hzero]
      simp [HasAllPermissions, hres]
    | true =>
      have hco' : cacheCoherent store a' := by
        have hp := hasPermission_preserves_coherent store a now u m hco
        rw [hres] at hp
        exact hp
      have hrest := ih a' hco' fun m' hm' => hall m' (List.mem_cons_of_mem m hm')
      have hskip : ((m :: ms).all fun m' =>
            pureHolds store uid m')
          = ms.all fun m' => pureHolds store uid m' := by
        simp [List.all_cons, pureHolds, hb]
      rw [hskip]
      simp only [HasAllPermissions, hres]
      exact hrest

/-- C5: `HasAnyPermission` iterates the names in order through
`HasPermission`: it short-circuits with `(true, nil)` on the first match,
propagates the first error as-is, and otherwise continues on the state
left by the failed check; `HasAllPermissions` is symmetric (short-circuits
with `(false, nil)` on the first non-match, propagates the first error,
continues on a match).  Moreover, against a fixed (coherent) store state
with per-name successful loads, `HasAnyPermission` answers true iff at
least one name is held and `HasAllPermissions` answers true iff all names
are held. -/
theorem composition_semantics (store : Store) (a : Authorizer) (now : Int)
    (u uid n : String) (ns ms : List String) :
    ((HasPermission store a now u n).1 = Except.ok true →
      HasAnyPermission store a now u (n :: ns) = HasPermission store a now u n) ∧
    (∀ e, (HasPermission store a now u n).1 = Except.error e →
      HasAnyPermission store a now u (n :: ns) = HasPermission store a now u n ∧
      HasAllPermissions store a now u (n :: ns) = HasPermission store a now u n) ∧
    ((HasPermission store a now u n).1 = Except.ok false →
      (HasAnyPermission store a now u (n :: ns)).1 =
        (HasAnyPermission store (HasPermission store a now u n).2.1 now u ns).1 ∧
      HasAllPermissions store a now u (n :: ns) = HasPermission store a now u n) ∧
    ((HasPermission store a now u n).1 = Except.ok true →
      (HasAllPermissions store a now u (n :: ns)).1 =
        (HasAllPermissions store (HasPermission store a now u n).2.1 now u ns).1) ∧
    (cacheCoherent store a → uuidParse u = some uid →
      (∀ m ∈ ms, ∃ b, pureHas store uid m = Except.ok b) →
      (HasAnyPermission store a now u ms).1 =
        Except.ok (ms.any fun m =>
          pureHolds store uid m) ∧
      (HasAllPermissions store a now u ms).1 =
        Except.ok (ms.all fun m =>
          pureHolds store uid m)) := by
  rcases hres : HasPermission store a now u n with ⟨r1, a', nl⟩
  refine ⟨?_, ?_, ?_, ?_, ?_⟩
  · intro h
    have hr : r1 = Except.ok true := h
    subst hr
    simp [HasAnyPermission, hres]
  · intro e h
    have hr : r1 = Except.error e := h
    subst hr
    constructor <;> simp [HasAnyPermission, HasAllPermissions, hres]
  · intro h
    have hr : r1 = Except.ok false := h
    subst hr
    constructor
    · simp [HasAnyPermission, hres]
    · simp [HasAllPermissions, hres]
  · intro h
    have hr : r1 = Except.ok true := h
    subst hr
    simp [HasAllPermissions, hres]
  · intro hco hu hall
    exact ⟨hasAny_answer_coherent store now u uid hu ms a hco hall,
      hasAll_answer_coherent store now u uid hu ms a hco hall⟩

/-- C5 witness: from a fresh authorizer against the fixture store, the
any/all answers equal the store-only any/all over the name list. -/
theorem composition_semantics_witness :
    (HasAnyPermission storeRead (NewAuthorizer 10) 0 uuidA
        ["user.delete", "read:users"]).1 =
      Except.ok (["user.delete", "read:users"].any fun m =>
        pureHolds storeRead uuidA m) ∧
    (HasAllPermissions storeRead (NewAuthorizer 10) 0 uuidA
        ["user.delete", "read:users"]).1 =
      Except.ok (["user.delete", "read:users"].all fun m =>
        pureHolds storeRead uuidA m) :=
  (composition_semantics storeRead (NewAuthorizer 10) 0 uuidA uuidA "x" []
      ["user.delete", "read:users"]).2.2.2.2
    (fun k e uid hf _ => Option.noConfusion hf)
    (by decide)
    (fun m _ => ⟨_, rfl⟩)

end Authz

namespace Authz

/-! ### C8: one pass of the background sweep -/

/-- On a duplicate-free cache (every Go map state is), filtering out the
expired entries changes `find?` exactly by dropping expired answers. -/
theorem Cache.find?_filter_expired (c : Cache) (k : String) (ttl now : Int)
    (hnd : (c.map Prod.fst).Nodup) :
    Cache.find? (c.filter fun kv => ! decide (now - kv.2.loadedAt > ttl)) k =
      match Cache.find? c k with
      | none => none
      | some e => if now - e.loadedAt > ttl then none else some e := by
  induction c with
  | nil => rfl
  | cons hd tl ih =>
    obtain ⟨k1, v1⟩ := hd
    simp only [List.map_cons, List.nodup_cons] at hnd
    obtain ⟨hk1, hnd'⟩ := hnd
    by_cases h1 : k1 = k
    · subst h1
      by_cases hexp : now - v1.loadedAt > ttl
      · rw [List.filter_cons, if_neg (by simp [hexp])]
        have hnone : Cache.find? tl k1 = none :=
          Cache.find?_eq_none_of_not_mem tl k1 hk1
        rw [Cache.find?_filter_eq_none tl k1 _ hnone]
        simp [Cache.find?, hexp]
      · rw [List.filter_cons, if_pos (by simp [hexp])]
        simp [Cache.find?, hexp]
    · rw [List.filter_cons]
      by_cases hexp : now - v1.loadedAt > ttl
      · rw [if_neg (by simp [hexp])]
        rw [ih hnd']
        simp [Cache.find?, h1]
      · rw [if_pos (by simp [hexp])]
        simp only [Cache.find?, if_neg h1]
        exact ih hnd'

/-- C8: one pass of `cleanExpiredCache` keeps exactly the entries whose
age does not exceed the TTL, unchanged (membership form, any cache), and
on duplicate-free caches every lookup afterwards sees exactly the
not-expired part of what it saw before (lookup form). -/
theorem cleanExpiredCache_exact (a : Authorizer) (now : Int) (k : String)
    (kv : String × UserPermissions) :
    (kv ∈ (cleanExpiredCache a now).cache ↔
      kv ∈ a.cache ∧ ¬ now - kv.2.loadedAt > a.cacheTTL) ∧
    ((a.cache.map Prod.fst).Nodup →
      Cache.find? (cleanExpiredCache a now).cache k =
        match Cache.find? a.cache k with
        | none => none
        | some e => if now - e.loadedAt > a.cacheTTL then none else some e) := by
  constructor
  · simp [cleanExpiredCache, List.mem_filter]
  · intro hnd
    exact Cache.find?_filter_expired a.cache k a.cacheTTL now hnd

/-- C8 witness: at clock 11 on the two-entry cache, the sweep deletes the
age-11 entry (TTL 10) and keeps the age-3 entry unchanged. -/
theorem cleanExpiredCache_exact_witness :
    Cache.find? (cleanExpiredCache aSweep 11).cache uuidA = none ∧
    ((uuidB, (⟨[], 8⟩ : UserPermissions)) ∈ (cleanExpiredCache aSweep 11).cache ↔
      (uuidB, (⟨[], 8⟩ : UserPermissions)) ∈ aSweep.cache ∧
        ¬ (11 : Int) - (8 : Int) > aSweep.cacheTTL) :=
  ⟨((cleanExpiredCache_exact aSweep 11 uuidA (uuidA, ⟨[permRead], 0⟩)).2
      (by decide)).trans rfl,
   (cleanExpiredCache_exact aSweep 11 uuidA (uuidB, ⟨[], 8⟩)).1⟩

/-! ### C9: SetCacheTTL frame and immediacy -/

/-- C9: `SetCacheTTL` changes only the TTL field — the cache (every entry,
timestamps included) and the enable flag are untouched — and both
subsequent validity checks use the new TTL immediately: a cached entry
answers a lookup iff its age is at most the new TTL, and a sweep pass
keeps it iff its age is at most the new TTL. -/
theorem setCacheTTL_frame (a : Authorizer) (t now : Int) (u p k : String)
    (e : UserPermissions) :
    (SetCacheTTL a t).cache = a.cache ∧
    (SetCacheTTL a t).enableCaching = a.enableCaching ∧
    (SetCacheTTL a t).cacheTTL = t ∧
    (Cache.find? a.cache u = some e →
      ((checkCache (SetCacheTTL a t) now u p).2 = true ↔
        now - e.loadedAt ≤ t)) ∧
    ((k, e) ∈ a.cache →
      ((k, e) ∈ (cleanExpiredCache (SetCacheTTL a t) now).cache ↔
        now - e.loadedAt ≤ t)) := by
  refine ⟨rfl, rfl, rfl, ?_, ?_⟩
  · intro hf
    have hf' : Cache.find? (SetCacheTTL a t).cache u = some e := hf
    by_cases hexp : now - e.loadedAt > t
    · rw [checkCache_expired _ now u p e hf' hexp]
      simp
      omega
    · rw [checkCache_fresh _ now u p e hf' hexp]
      simp
      omega
  · intro hm
    simp [cleanExpiredCache, List.mem_filter, SetCacheTTL, hm]

/-- C9 witness: shrinking the TTL to 3 leaves the entry (stamped at 0) in
place but makes a lookup at clock 5 treat it by the new TTL. -/
theorem setCacheTTL_frame_witness :
    (SetCacheTTL aBoundary 3).cache = aBoundary.cache ∧
    ((checkCache (SetCacheTTL aBoundary 3) 5 uuidA "read:users").2 = true ↔
      (5 : Int) - (⟨[permRead], 0⟩ : UserPermissions).loadedAt ≤ 3) ∧
    ((uuidA, (⟨[permRead], 0⟩ : UserPermissions)) ∈
        (cleanExpiredCache (SetCacheTTL aBoundary 3) 5).cache ↔
      (5 : Int) - (⟨[permRead], 0⟩ : UserPermissions).loadedAt ≤ 3) :=
  ⟨(setCacheTTL_frame aBoundary 3 5 uuidA "read:users" uuidA
      ⟨[permRead], 0⟩).1,
   (setCacheTTL_frame aBoundary 3 5 uuidA "read:users" uuidA
      ⟨[permRead], 0⟩).2.2.2.1 rfl,
   (setCacheTTL_frame aBoundary 3 5 uuidA "read:users" uuidA
      ⟨[permRead], 0⟩).2.2.2.2 (by decide)⟩

end Authz
